import Mathlib

/-!
Shallow embedding of the playback-arbitration resolution engine of
`PlaybackControlSkill` (`__init__.py`): the session registry
(`query_replies`, `query_extensions`, `has_played`), the operations
`play`, `handle_play_query_response`, `_play_query_timeout` and
`handle_song_info`, together with theorems settling the specification's
claims about them.

Python dictionaries keyed by strings are embedded as association lists
(`alistLookup` / `alistSet` / `alistErase`); `KeyError` on an unguarded
dictionary index is embedded as `Except.error` carrying the state at the
point of the raise.  The confidence values compared by the winner scan
are embedded as rationals.  `random.choice` is embedded as selection by
an arbitrary natural number index (`pick`), quantified over in the
theorems.
-/

namespace PlaybackControl

abbrev Phrase := String
abbrev SkillId := String

/-- Payload of a bid's `callback_data` dictionary.  `skill_gui` is the
truthiness of `callback_data.get("skill_gui", False)` (absent key =
`false`); `payload` keeps the rest of the dictionary opaque. -/
structure CallbackData where
  skill_gui : Bool
  payload : List (String × String)
deriving DecidableEq

/-- One entry of `query_replies[phrase]`: the fields of the reply message
that the engine reads (`skill_id`, `conf`, `callback_data`). -/
structure Bid where
  skill_id : SkillId
  conf : Rat
  callback_data : Option CallbackData
deriving DecidableEq

/-- Data of an inbound `play:query.response` message.  `searching = none`
embeds a message without a `searching` key (a final bid); `some b` embeds
`searching` present with boolean value `b`. -/
structure QueryResponseMsg where
  phrase : Phrase
  skill_id : SkillId
  searching : Option Bool
  conf : Rat
  callback_data : Option CallbackData
deriving DecidableEq

/-- Data of the message delivered to the scheduled `_play_query_timeout`
callback.  `neon_in_request` is the outcome of the
`self.neon_in_request(message)` policy check on that message. -/
structure TimeoutMsg where
  phrase : Phrase
  neon_in_request : Bool
deriving DecidableEq

/-- Observable external effects of the engine: timer cancellation and
(re)scheduling, outbound bus events, GUI page display and spoken dialogs. -/
inductive Event where
  | cancelTimeout : Event
  | scheduleTimeout (delay : Nat) (phrase : Phrase) : Event
  | playQuery (phrase : Phrase) : Event
  | playStart (skill_id : SkillId) (phrase : Phrase)
      (callback_data : Option CallbackData) : Event
  | showPage (page : String) : Event
  | speakDialog (dialog : String) (data : Option Phrase) : Event
deriving DecidableEq

/-- Mutable state of the skill read and written by the resolution engine. -/
structure EngineState where
  query_replies : List (Phrase × List Bid)
  query_extensions : List (Phrase × List SkillId)
  has_played : Bool
deriving DecidableEq

/-- Dictionary lookup: `d[k]` / `k in d` on a string-keyed dictionary. -/
def alistLookup {α : Type} : List (String × α) → String → Option α
  | [], _ => none
  | (k, v) :: rest, key => if k = key then some v else alistLookup rest key

/-- Dictionary assignment `d[k] = v`: replace the binding if the key is
present, append it otherwise. -/
def alistSet {α : Type} : List (String × α) → String → α → List (String × α)
  | [], key, v => [(key, v)]
  | (k, w) :: rest, key, v =>
      if k = key then (k, v) :: rest else (k, w) :: alistSet rest key v

/-- Dictionary deletion `del d[k]` (a no-op when the key is absent, which
matches the guarded `if k in d: del d[k]` uses in the source). -/
def alistErase {α : Type} (l : List (String × α)) (key : String) :
    List (String × α) :=
  l.filter (fun p => p.1 != key)

/-- The bid recorded from a `play:query.response` message: the source
appends `message.data` itself; the engine later reads only these fields. -/
def msgBid (m : QueryResponseMsg) : Bid :=
  { skill_id := m.skill_id, conf := m.conf, callback_data := m.callback_data }

/-- `play(message)` after phrase extraction: resets
`query_replies[phrase]` and `query_extensions[phrase]` to empty, emits
the `play:query` broadcast and schedules `PlayQueryTimeout` at delay 1.
`hesitation` is the `CORE_useHesitation` signal check. -/
def play (hesitation : Bool) (phrase : Phrase) (st : EngineState) :
    EngineState × List Event :=
  ({ st with
      query_replies := alistSet st.query_replies phrase [],
      query_extensions := alistSet st.query_extensions phrase [] },
   (if hesitation then [Event.speakDialog "one_moment" none] else []) ++
     [Event.playQuery phrase, Event.scheduleTimeout 1 phrase])

/-- `handle_play_query_response(message)`.  The first branch handles
extension signaling (`"searching" in message.data and search_phrase in
self.query_extensions`); the `elif search_phrase in self.query_replies`
branch records a bid and, when the bidder was the last pending extension
holder, reschedules the timeout at delay 0.  The unguarded
`self.query_extensions[search_phrase]` index in the bid branch is the one
place this handler can raise `KeyError`, embedded as `Except.error` with
the state after the already-performed append. -/
def handle_play_query_response (m : QueryResponseMsg) (st : EngineState) :
    Except EngineState (EngineState × List Event) :=
  match m.searching, alistLookup st.query_extensions m.phrase with
  | some stillSearching, some exts =>
      if stillSearching then
        let exts2 := if m.skill_id ∈ exts then exts else exts ++ [m.skill_id]
        Except.ok
          ({ st with query_extensions := alistSet st.query_extensions m.phrase exts2 },
           [Event.cancelTimeout, Event.scheduleTimeout 5 m.phrase])
      else
        if m.skill_id ∈ exts then
          let exts2 := exts.erase m.skill_id
          let st2 :=
            { st with query_extensions := alistSet st.query_extensions m.phrase exts2 }
          if exts2 = [] then
            Except.ok (st2, [Event.cancelTimeout, Event.scheduleTimeout 1 m.phrase])
          else
            Except.ok (st2, [])
        else
          Except.ok (st, [])
  | _, _ =>
      match alistLookup st.query_replies m.phrase with
      | some reps =>
          let st1 :=
            { st with
                query_replies := alistSet st.query_replies m.phrase (reps ++ [msgBid m]) }
          match alistLookup st.query_extensions m.phrase with
          | none => Except.error st1
          | some exts =>
              if m.skill_id ∈ exts then
                let exts2 := exts.erase m.skill_id
                let st2 :=
                  { st1 with
                      query_extensions := alistSet st.query_extensions m.phrase exts2 }
                if exts2 = [] then
                  Except.ok (st2, [Event.cancelTimeout, Event.scheduleTimeout 0 m.phrase])
                else
                  Except.ok (st2, [])
              else
                Except.ok (st1, [])
      | none => Except.ok (st, [])

/-- One step of the winner scan in `_play_query_timeout`: `if not best or
handler["conf"] > best["conf"]` replaces `best` and clears `ties`;
`elif handler["conf"] == best["conf"]` appends to `ties`. -/
def scanStep (acc : Option Bid × List Bid) (handler : Bid) : Option Bid × List Bid :=
  match acc with
  | (none, _) => (some handler, [])
  | (some best, ties) =>
      if handler.conf > best.conf then (some handler, [])
      else if handler.conf = best.conf then (some best, ties ++ [handler])
      else (some best, ties)

/-- `random.choice(l)` embedded as selection by an arbitrary index `n`
(reduced modulo the list length; `d` is a default never used on the
non-empty lists the engine passes). -/
def pick (n : Nat) (d : Bid) (l : List Bid) : Bid := l.getD (n % l.length) d

/-- Truthiness of `bid.get("callback_data", \x7b\x7d).get("skill_gui", False)`. -/
def getSkillGui : Option CallbackData → Bool
  | none => false
  | some cd => cd.skill_gui

/-- `_play_query_timeout(message)`.  First sets
`query_extensions[phrase] = []`, then scans `query_replies[phrase]` — an
unguarded index that raises `KeyError` when the phrase is absent, embedded
as `Except.error` — picks `best`/`ties`, dispatches the selected bid (at a
tie, a random element of `ties + [best]`), shows the generic GUI page when
`best`'s callback data has no truthy `skill_gui`, sets `has_played`, and
deletes the session's entries.  With no replies it speaks `cant.play`
only when `neon_in_request(message)` holds. -/
def playQueryTimeout (rand : Nat) (m : TimeoutMsg) (st : EngineState) :
    Except EngineState (EngineState × List Event) :=
  let st0 := { st with query_extensions := alistSet st.query_extensions m.phrase [] }
  match alistLookup st0.query_replies m.phrase with
  | none => Except.error st0
  | some reps =>
      match reps.foldl scanStep (none, []) with
      | (some best, ties) =>
          let selected := if ties = [] then best else pick rand best (ties ++ [best])
          let guiEvents :=
            if getSkillGui best.callback_data then []
            else [Event.showPage "controls.qml"]
          let st2 :=
            { st0 with
                query_replies := alistErase st0.query_replies m.phrase,
                query_extensions := alistErase st0.query_extensions m.phrase,
                has_played := true }
          Except.ok (st2,
            guiEvents ++
              [Event.playStart selected.skill_id m.phrase selected.callback_data])
      | (none, _) =>
          let st2 :=
            { st0 with
                query_replies := alistErase st0.query_replies m.phrase,
                query_extensions := alistErase st0.query_extensions m.phrase }
          Except.ok (st2,
            if m.neon_in_request then [Event.speakDialog "cant.play" (some m.phrase)]
            else [])

/-- The four tracked presentation-state keys. -/
def STATUS_KEYS : List String := ["track", "artist", "album", "image"]

/-- Data of a `play:status` message: each tracked field optionally present. -/
structure StatusMsg where
  track : Option String
  artist : Option String
  album : Option String
  image : Option String
deriving DecidableEq

/-- `message.data.get(key)` restricted to the tracked keys. -/
def statusGet (m : StatusMsg) (key : String) : Option String :=
  if key = "track" then m.track
  else if key = "artist" then m.artist
  else if key = "album" then m.album
  else if key = "image" then m.image
  else none

/-- `handle_song_info(message)`: folds over `STATUS_KEYS`, computing the
`changed` flag (`changed = changed or self.gui[key] != val`, where a
`KeyError` on the cache lookup — reached only while `changed` is still
false, by short-circuiting — sets `changed = True`) and writing each value
back to the cache.  Returns the updated cache and the `changed` flag that
gates the emission of the track-change notification. -/
def handle_song_info (m : StatusMsg) (gui : List (String × String)) :
    List (String × String) × Bool :=
  STATUS_KEYS.foldl
    (fun acc key =>
      let val := (statusGet m key).getD ""
      let changed :=
        if acc.2 then true
        else
          match alistLookup acc.1 key with
          | none => true
          | some old => old != val
      (alistSet acc.1 key val, changed))
    (gui, false)

/-- State at the end of an engine operation, whether it returned normally
or raised (`Except.error` carries the state at the raise point). -/
def resultState : Except EngineState (EngineState × List Event) → EngineState
  | Except.error st => st
  | Except.ok (st, _) => st

/-- Whether an engine operation completed without raising. -/
def exceptIsOk : Except EngineState (EngineState × List Event) → Bool
  | Except.error _ => false
  | Except.ok _ => true

/-- Keys invariant: every phrase with a `query_replies` entry also has a
`query_extensions` entry. -/
def KeysInv (st : EngineState) : Prop :=
  ∀ p, (alistLookup st.query_replies p).isSome →
    (alistLookup st.query_extensions p).isSome

/-- Whether an event is the `play:start` dispatch that resolves a session. -/
def isPlayStart : Event → Bool
  | Event.playStart _ _ _ => true
  | _ => false

theorem alistLookup_set_self {α : Type} (l : List (String × α)) (k : String) (v : α) :
    alistLookup (alistSet l k v) k = some v := by
  induction l with
  | nil => simp [alistSet, alistLookup]
  | cons p rest ih =>
      obtain ⟨k1, v1⟩ := p
      by_cases h : k1 = k
      · simp [alistSet, alistLookup, h]
      · simp [alistSet, alistLookup, h, ih]

theorem alistLookup_set_ne {α : Type} (l : List (String × α)) (k k' : String) (v : α)
    (h : k ≠ k') : alistLookup (alistSet l k v) k' = alistLookup l k' := by
  induction l with
  | nil => simp [alistSet, alistLookup, h]
  | cons p rest ih =>
      obtain ⟨k1, v1⟩ := p
      by_cases h1 : k1 = k
      · subst h1
        simp [alistSet, alistLookup, h]
      · simp [alistSet, alistLookup, h1, ih]

theorem alistLookup_erase_self {α : Type} (l : List (String × α)) (k : String) :
    alistLookup (alistErase l k) k = none := by
  induction l with
  | nil => simp [alistErase, alistLookup]
  | cons p rest ih =>
      obtain ⟨k1, v1⟩ := p
      by_cases h : k1 = k
      · simpa [alistErase, h] using ih
      · simpa [alistErase, alistLookup, h] using ih

theorem alistLookup_erase_ne {α : Type} (l : List (String × α)) (k k' : String)
    (h : k ≠ k') : alistLookup (alistErase l k) k' = alistLookup l k' := by
  induction l with
  | nil => simp [alistErase, alistLookup]
  | cons p rest ih =>
      obtain ⟨k1, v1⟩ := p
      by_cases h1 : k1 = k
      · subst h1
        simpa [alistErase, alistLookup, h] using ih
      · by_cases h2 : k1 = k'
        · simp [alistErase, alistLookup, h1, h2, Ne.symm h]
        · simpa [alistErase, alistLookup, h1, h2] using ih

theorem scanStep_fst_lt (q : Rat) (acc : Option Bid × List Bid) (x : Bid)
    (hacc : ∀ c, acc.1 = some c → c.conf < q) (hx : x.conf < q) :
    ∀ c, (scanStep acc x).1 = some c → c.conf < q := by
  obtain ⟨ob, t⟩ := acc
  cases ob with
  | none =>
      intro c hc
      simp [scanStep] at hc
      exact hc ▸ hx
  | some b =>
      have hb : b.conf < q := hacc b rfl
      intro c hc
      by_cases hgt : x.conf > b.conf
      · simp [scanStep, hgt] at hc
        exact hc ▸ hx
      · by_cases heq : x.conf = b.conf
        · simp [scanStep, hgt, heq] at hc
          exact hc ▸ hb
        · simp [scanStep, hgt, heq] at hc
          exact hc ▸ hb

theorem foldl_scan_lt (q : Rat) (l : List Bid) (acc : Option Bid × List Bid)
    (hacc : ∀ c, acc.1 = some c → c.conf < q) (hl : ∀ x ∈ l, x.conf < q) :
    ∀ c, (l.foldl scanStep acc).1 = some c → c.conf < q := by
  induction l generalizing acc with
  | nil => exact hacc
  | cons x xs ih =>
      rw [List.foldl_cons]
      exact ih (scanStep acc x)
        (scanStep_fst_lt q acc x hacc (hl x (List.mem_cons_self _ _)))
        (fun y hy => hl y (List.mem_cons_of_mem _ hy))

theorem foldl_scan_keep (b : Bid) (l : List Bid)
    (h : ∀ x ∈ l, x.conf < b.conf) :
    l.foldl scanStep (some b, []) = (some b, []) := by
  induction l with
  | nil => rfl
  | cons x xs ih =>
      have hx : x.conf < b.conf := h x (List.mem_cons_self _ _)
      have hstep : scanStep (some b, []) x = (some b, []) := by
        simp [scanStep, asymm hx, hx.ne]
      rw [List.foldl_cons, hstep]
      exact ih (fun y hy => h y (List.mem_cons_of_mem _ hy))

theorem foldl_scan_ties (b : Bid) (l : List Bid) (t : List Bid)
    (h : ∀ x ∈ l, x.conf ≤ b.conf) :
    l.foldl scanStep (some b, t) =
      (some b, t ++ l.filter (fun x => decide (x.conf = b.conf))) := by
  induction l generalizing t with
  | nil => simp
  | cons x xs ih =>
      have hx : x.conf ≤ b.conf := h x (List.mem_cons_self _ _)
      have hrest : ∀ y ∈ xs, y.conf ≤ b.conf :=
        fun y hy => h y (List.mem_cons_of_mem _ hy)
      by_cases heq : x.conf = b.conf
      · have hstep : scanStep (some b, t) x = (some b, t ++ [x]) := by
          simp [scanStep, heq]
        rw [List.foldl_cons, hstep, ih (t ++ [x]) hrest]
        simp [List.filter_cons, heq]
      · have hlt : x.conf < b.conf := lt_of_le_of_ne hx heq
        have hstep : scanStep (some b, t) x = (some b, t) := by
          simp [scanStep, asymm hlt, heq]
        rw [List.foldl_cons, hstep, ih t hrest]
        simp [List.filter_cons, heq]

theorem scan_first_max (l1 l2 : List Bid) (b : Bid)
    (h1 : ∀ x ∈ l1, x.conf < b.conf) :
    (l1 ++ b :: l2).foldl scanStep ((none : Option Bid), ([] : List Bid)) =
      l2.foldl scanStep (some b, []) := by
  rw [List.foldl_append, List.foldl_cons]
  have hfst : ∀ c,
      (l1.foldl scanStep ((none : Option Bid), ([] : List Bid))).1 = some c →
        c.conf < b.conf :=
    foldl_scan_lt b.conf l1 (none, []) (fun c hc => by simp at hc) h1
  rcases hfold : l1.foldl scanStep ((none : Option Bid), ([] : List Bid)) with ⟨ob, t⟩
  cases ob with
  | none => rfl
  | some c =>
      have hc : c.conf < b.conf := hfst c (by rw [hfold])
      have hstep : scanStep (some c, t) b = (some b, []) := by
        simp [scanStep, hc]
      rw [hstep]

theorem pick_mem (n : Nat) (d : Bid) (l : List Bid) (h : l ≠ []) :
    pick n d l ∈ l := by
  have hlen : 0 < l.length := List.length_pos.mpr h
  have hmod : n % l.length < l.length := Nat.mod_lt _ hlen
  unfold pick
  rw [List.getD_eq_getElem l d hmod]
  exact List.getElem_mem hmod

/-- C1: when a session's collected replies list contains exactly one bid of
maximal confidence (written as a decomposition of the list around that bid
`b`, every other reply strictly below `b.conf`, which covers every arrival
order), the timeout resolution selects that bid and emits the `play:start`
event carrying that bid's skill id, the session's phrase and that bid's
callback data. -/
theorem timeout_unique_max_dispatches_best (rand : Nat) (m : TimeoutMsg)
    (st : EngineState) (l1 l2 : List Bid) (b : Bid)
    (hrep : alistLookup st.query_replies m.phrase = some (l1 ++ b :: l2))
    (h1 : ∀ x ∈ l1, x.conf < b.conf) (h2 : ∀ x ∈ l2, x.conf < b.conf) :
    playQueryTimeout rand m st =
      Except.ok
        ({ query_replies := alistErase st.query_replies m.phrase,
           query_extensions :=
             alistErase (alistSet st.query_extensions m.phrase []) m.phrase,
           has_played := true },
         (if getSkillGui b.callback_data then [] else [Event.showPage "controls.qml"]) ++
           [Event.playStart b.skill_id m.phrase b.callback_data]) := by
  have hscan : (l1 ++ b :: l2).foldl scanStep ((none : Option Bid), ([] : List Bid)) =
      (some b, []) := by
    rw [scan_first_max l1 l2 b h1]
    exact foldl_scan_keep b l2 h2
  simp only [playQueryTimeout, hrep, hscan]
  simp

theorem timeout_unique_max_dispatches_best_witness :
    (∀ x ∈ [(⟨"skill-a", 3, none⟩ : Bid)], x.conf < (⟨"skill-b", 7, none⟩ : Bid).conf) ∧
    playQueryTimeout 0 ⟨"jazz", false⟩
        ⟨[("jazz", [⟨"skill-a", 3, none⟩, ⟨"skill-b", 7, none⟩])], [("jazz", [])], false⟩ =
      Except.ok
        (⟨[], [], true⟩,
         [Event.showPage "controls.qml", Event.playStart "skill-b" "jazz" none]) := by
  constructor
  · decide
  · have h := timeout_unique_max_dispatches_best 0 ⟨"jazz", false⟩
      ⟨[("jazz", [⟨"skill-a", 3, none⟩, ⟨"skill-b", 7, none⟩])], [("jazz", [])], false⟩
      [⟨"skill-a", 3, none⟩] [] ⟨"skill-b", 7, none⟩ (by decide) (by decide) (by decide)
    simpa using h

/-- C2: when two or more replies share the maximal confidence (written as a
decomposition around the first maximal bid `b`: earlier replies strictly
below `b.conf`, later replies at most `b.conf`, with at least one later
reply equal to it), the winner scan makes `b` the `best` and `ties` exactly
the later replies of equal confidence in arrival order; the dispatched
winner is the random choice out of `ties ++ [best]`, hence an element of
that set of maximal bids, for every value of the random index. -/
theorem timeout_tie_scan_and_random_winner (rand : Nat) (m : TimeoutMsg)
    (st : EngineState) (l1 l2 : List Bid) (b : Bid)
    (hrep : alistLookup st.query_replies m.phrase = some (l1 ++ b :: l2))
    (h1 : ∀ x ∈ l1, x.conf < b.conf) (h2 : ∀ x ∈ l2, x.conf ≤ b.conf)
    (hties : l2.filter (fun x => decide (x.conf = b.conf)) ≠ []) :
    (l1 ++ b :: l2).foldl scanStep ((none : Option Bid), ([] : List Bid)) =
      (some b, l2.filter (fun x => decide (x.conf = b.conf))) ∧
    pick rand b (l2.filter (fun x => decide (x.conf = b.conf)) ++ [b]) ∈
      l2.filter (fun x => decide (x.conf = b.conf)) ++ [b] ∧
    playQueryTimeout rand m st =
      Except.ok
        ({ query_replies := alistErase st.query_replies m.phrase,
           query_extensions :=
             alistErase (alistSet st.query_extensions m.phrase []) m.phrase,
           has_played := true },
         (if getSkillGui b.callback_data then [] else [Event.showPage "controls.qml"]) ++
           [Event.playStart
              (pick rand b (l2.filter (fun x => decide (x.conf = b.conf)) ++ [b])).skill_id
              m.phrase
              (pick rand b
                (l2.filter (fun x => decide (x.conf = b.conf)) ++ [b])).callback_data]) := by
  have hscan : (l1 ++ b :: l2).foldl scanStep ((none : Option Bid), ([] : List Bid)) =
      (some b, l2.filter (fun x => decide (x.conf = b.conf))) := by
    rw [scan_first_max l1 l2 b h1]
    simpa using foldl_scan_ties b l2 [] h2
  refine ⟨hscan, pick_mem rand b _ (by simp), ?_⟩
  simp only [playQueryTimeout, hrep, hscan]
  rw [if_neg hties]

theorem timeout_tie_scan_and_random_winner_witness :
    ([⟨"l", 2, none⟩, ⟨"c", 7, none⟩] : List Bid).filter
        (fun x => decide (x.conf = (⟨"a", 7, none⟩ : Bid).conf)) ≠ [] ∧
    playQueryTimeout 0 ⟨"rock", false⟩
        ⟨[("rock", [⟨"a", 7, none⟩, ⟨"l", 2, none⟩, ⟨"c", 7, none⟩])],
         [("rock", [])], false⟩ =
      Except.ok
        (⟨[], [], true⟩,
         [Event.showPage "controls.qml", Event.playStart "c" "rock" none]) := by
  constructor
  · decide
  · have h := timeout_tie_scan_and_random_winner 0 ⟨"rock", false⟩
      ⟨[("rock", [⟨"a", 7, none⟩, ⟨"l", 2, none⟩, ⟨"c", 7, none⟩])],
       [("rock", [])], false⟩
      [] [⟨"l", 2, none⟩, ⟨"c", 7, none⟩] ⟨"a", 7, none⟩
      (by decide) (by decide) (by decide) (by decide)
    exact h.2.2.trans (by rfl)

/-- C3: failing input for the claim that the generic presentation surface is
triggered if and only if the *selected* winner's callback data has no truthy
`skill_gui` flag.  Two bids tie at confidence 5: the first (`"a"`) carries
`skill_gui = true`, the second (`"b"`) carries `skill_gui = false`.  With
random index 0 the tie-break selects `"b"` and the `play:start` event carries
`"b"`'s callback data, whose `skill_gui` is false — yet no
`showPage "controls.qml"` event is emitted, because the source checks
`best` (the first maximal bid, `"a"`) instead of `selected`. -/
theorem gui_check_ignores_selected_winner :
    playQueryTimeout 0 ⟨"pop", false⟩
        ⟨[("pop", [⟨"a", 5, some ⟨true, []⟩⟩, ⟨"b", 5, some ⟨false, []⟩⟩])],
         [("pop", [])], false⟩ =
      Except.ok
        (⟨[], [], true⟩, [Event.playStart "b" "pop" (some ⟨false, []⟩)]) ∧
    getSkillGui (some ⟨false, []⟩) = false ∧
    Event.showPage "controls.qml" ∉
      ([Event.playStart "b" "pop" (some ⟨false, []⟩)] : List Event) := by
  refine ⟨by rfl, rfl, by simp⟩

/-- C4: when an inbound `play:query.response` event removes the last pending
extension holder of an open session, the `PlayQueryTimeout` timer is
cancelled and rescheduled — at delay 1 for a `searching = false` extension
signal, at delay 0 for a final bid; when other holders remain the timer is
left untouched (no timer events at all); in both cases the session stays
open (its registry entries survive, with the holder removed) and no
`play:start` dispatch is emitted. -/
theorem response_last_holder_reschedules (m : QueryResponseMsg) (st : EngineState)
    (exts : List SkillId) (reps : List Bid)
    (hext : alistLookup st.query_extensions m.phrase = some exts)
    (hrep : alistLookup st.query_replies m.phrase = some reps)
    (hmem : m.skill_id ∈ exts) :
    (m.searching = some false →
      handle_play_query_response m st =
        Except.ok
          ({ st with query_extensions :=
              alistSet st.query_extensions m.phrase (exts.erase m.skill_id) },
           if exts.erase m.skill_id = []
           then [Event.cancelTimeout, Event.scheduleTimeout 1 m.phrase]
           else []) ∧
      alistLookup
          ({ st with query_extensions :=
              alistSet st.query_extensions m.phrase (exts.erase m.skill_id) }
            : EngineState).query_replies m.phrase = some reps ∧
      ((if exts.erase m.skill_id = []
        then [Event.cancelTimeout, Event.scheduleTimeout 1 m.phrase]
        else []).all fun e => !isPlayStart e) = true) ∧
    (m.searching = none →
      handle_play_query_response m st =
        Except.ok
          ({ st with
              query_replies := alistSet st.query_replies m.phrase (reps ++ [msgBid m]),
              query_extensions :=
                alistSet st.query_extensions m.phrase (exts.erase m.skill_id) },
           if exts.erase m.skill_id = []
           then [Event.cancelTimeout, Event.scheduleTimeout 0 m.phrase]
           else []) ∧
      alistLookup
          ({ st with
              query_replies := alistSet st.query_replies m.phrase (reps ++ [msgBid m]),
              query_extensions :=
                alistSet st.query_extensions m.phrase (exts.erase m.skill_id) }
            : EngineState).query_replies m.phrase = some (reps ++ [msgBid m]) ∧
      ((if exts.erase m.skill_id = []
        then [Event.cancelTimeout, Event.scheduleTimeout 0 m.phrase]
        else []).all fun e => !isPlayStart e) = true) := by
  constructor
  · intro hs
    refine ⟨?_, ?_, ?_⟩
    · simp only [handle_play_query_response, hs, hext, hmem]
      by_cases he : exts.erase m.skill_id = [] <;> simp [he]
    · exact hrep
    · by_cases he : exts.erase m.skill_id = [] <;> simp [he, isPlayStart]
  · intro hs
    refine ⟨?_, ?_, ?_⟩
    · simp only [handle_play_query_response, hs, hext, hrep, hmem]
      by_cases he : exts.erase m.skill_id = [] <;> simp [he]
    · exact alistLookup_set_self st.query_replies m.phrase (reps ++ [msgBid m])
    · by_cases he : exts.erase m.skill_id = [] <;> simp [he, isPlayStart]

theorem response_last_holder_reschedules_witness :
    ("sx" ∈ (["sx"] : List SkillId)) ∧
    handle_play_query_response ⟨"news", "sx", some false, 0, none⟩
        ⟨[("news", [])], [("news", ["sx"])], false⟩ =
      Except.ok
        (⟨[("news", [])], [("news", [])], false⟩,
         [Event.cancelTimeout, Event.scheduleTimeout 1 "news"]) := by
  constructor
  · decide
  · have h := response_last_holder_reschedules ⟨"news", "sx", some false, 0, none⟩
      ⟨[("news", [])], [("news", ["sx"])], false⟩ ["sx"] []
      (by rfl) (by rfl) (by decide)
    exact (h.1 rfl).1.trans (by rfl)

/-- C5: an extension signal with `searching = true` for a phrase with an open
session cancels the pending `PlayQueryTimeout` and reschedules it at delay 5,
and registers the provider's skill id in the session's pending extensions
only when it is not already present — so a duplicate-free pending-extensions
list stays duplicate-free. -/
theorem searching_true_extends_and_registers (m : QueryResponseMsg)
    (st : EngineState) (exts : List SkillId)
    (hs : m.searching = some true)
    (hext : alistLookup st.query_extensions m.phrase = some exts) :
    handle_play_query_response m st =
      Except.ok
        ({ st with query_extensions :=
            (alistSet st.query_extensions m.phrase
              (if m.skill_id ∈ exts then exts else exts ++ [m.skill_id])) },
         [Event.cancelTimeout, Event.scheduleTimeout 5 m.phrase]) ∧
    alistLookup
        ({ st with query_extensions :=
            (alistSet st.query_extensions m.phrase
              (if m.skill_id ∈ exts then exts else exts ++ [m.skill_id])) }
          : EngineState).query_extensions m.phrase =
      some (if m.skill_id ∈ exts then exts else exts ++ [m.skill_id]) ∧
    (exts.Nodup → (if m.skill_id ∈ exts then exts else exts ++ [m.skill_id]).Nodup) := by
  refine ⟨?_, ?_, ?_⟩
  · simp only [handle_play_query_response, hs, hext]
    simp
  · exact alistLookup_set_self st.query_extensions m.phrase _
  · intro hnd
    by_cases hm : m.skill_id ∈ exts
    · simpa [hm] using hnd
    · simp [hm, List.nodup_append, hnd]

theorem searching_true_extends_and_registers_witness :
    (some true : Option Bool) = some true ∧
    handle_play_query_response ⟨"news", "sy", some true, 0, none⟩
        ⟨[("news", [])], [("news", [])], false⟩ =
      Except.ok
        (⟨[("news", [])], [("news", ["sy"])], false⟩,
         [Event.cancelTimeout, Event.scheduleTimeout 5 "news"]) := by
  constructor
  · rfl
  · have h := searching_true_extends_and_registers ⟨"news", "sy", some true, 0, none⟩
      ⟨[("news", [])], [("news", [])], false⟩ [] rfl (by rfl)
    exact h.1.trans (by rfl)

/-- C6: a final bid (a `play:query.response` message without a `searching`
field) whose phrase has no open session leaves the engine state unchanged
and raises no error, and after a later `play` opens a session for that
phrase the new session's replies list is empty — so the late bid never
appears in a subsequent session's replies. -/
theorem late_bid_is_noop (m : QueryResponseMsg) (st : EngineState) (hes : Bool)
    (hs : m.searching = none)
    (hrep : alistLookup st.query_replies m.phrase = none) :
    handle_play_query_response m st = Except.ok (st, []) ∧
    alistLookup (play hes m.phrase st).1.query_replies m.phrase = some [] := by
  constructor
  · simp only [handle_play_query_response, hs, hrep]
  · simp only [play]
    exact alistLookup_set_self st.query_replies m.phrase []

theorem late_bid_is_noop_witness :
    alistLookup (([] : List (Phrase × List Bid))) "gone" = none ∧
    handle_play_query_response ⟨"gone", "sz", none, 1, none⟩ ⟨[], [], false⟩ =
      Except.ok (⟨[], [], false⟩, []) ∧
    alistLookup (play true "gone" ⟨[], [], false⟩).1.query_replies "gone" = some [] := by
  have h := late_bid_is_noop ⟨"gone", "sz", none, 1, none⟩ ⟨[], [], false⟩ true
    rfl (by rfl)
  exact ⟨by rfl, h.1, h.2⟩

/-- C7 counterexample: at a timeout message whose phrase has no open session
(phrase absent from `query_replies`), `_play_query_timeout` raises — the
unguarded `self.query_replies[search_phrase]` scan index is a `KeyError` —
after having already set `query_extensions[phrase] = []`, so the callback
does not complete without propagating an exception. -/
theorem timeout_missing_phrase_raises :
    playQueryTimeout 0 ⟨"absent", false⟩ ⟨[], [], false⟩ =
      Except.error ⟨[], [("absent", [])], false⟩ := by rfl

/-- C7 (amended): for every message whose phrase has an open session (an
entry in `query_replies`), `_play_query_timeout` completes without raising
an exception. -/
theorem timeout_open_session_completes (rand : Nat) (m : TimeoutMsg)
    (st : EngineState) (reps : List Bid)
    (hrep : alistLookup st.query_replies m.phrase = some reps) :
    exceptIsOk (playQueryTimeout rand m st) = true := by
  simp only [playQueryTimeout, hrep]
  rcases hscan : reps.foldl scanStep ((none : Option Bid), ([] : List Bid)) with ⟨ob, t⟩
  cases ob <;> simp [exceptIsOk, hscan]

theorem timeout_open_session_completes_witness :
    alistLookup ([("w", [])] : List (Phrase × List Bid)) "w" = some [] ∧
    exceptIsOk (playQueryTimeout 0 ⟨"w", true⟩ ⟨[("w", [])], [], false⟩) = true := by
  exact ⟨by rfl,
    timeout_open_session_completes 0 ⟨"w", true⟩ ⟨[("w", [])], [], false⟩ [] (by rfl)⟩

/-- C8: at a timeout whose session has an empty replies list, resolution
emits no `play:start`, leaves `has_played` unchanged, speaks the
`cant.play` notice exactly when the `neon_in_request` policy check holds,
and removes all session state for the phrase from both registries. -/
theorem timeout_empty_replies_no_dispatch (rand : Nat) (m : TimeoutMsg)
    (st : EngineState)
    (hrep : alistLookup st.query_replies m.phrase = some []) :
    playQueryTimeout rand m st =
      Except.ok
        ({ query_replies := alistErase st.query_replies m.phrase,
           query_extensions :=
             (alistErase (alistSet st.query_extensions m.phrase []) m.phrase),
           has_played := st.has_played },
         if m.neon_in_request then [Event.speakDialog "cant.play" (some m.phrase)]
         else []) ∧
    alistLookup (alistErase st.query_replies m.phrase) m.phrase = none ∧
    alistLookup (alistErase (alistSet st.query_extensions m.phrase []) m.phrase)
      m.phrase = none := by
  refine ⟨?_, alistLookup_erase_self _ _, alistLookup_erase_self _ _⟩
  simp only [playQueryTimeout, hrep]
  rfl

theorem timeout_empty_replies_no_dispatch_witness :
    alistLookup ([("rock", [])] : List (Phrase × List Bid)) "rock" = some [] ∧
    playQueryTimeout 0 ⟨"rock", true⟩ ⟨[("rock", [])], [("rock", [])], false⟩ =
      Except.ok (⟨[], [], false⟩, [Event.speakDialog "cant.play" (some "rock")]) := by
  constructor
  · rfl
  · have h := timeout_empty_replies_no_dispatch 0 ⟨"rock", true⟩
      ⟨[("rock", [])], [("rock", [])], false⟩ (by rfl)
    exact h.1.trans (by rfl)

theorem KeysInv_set_ext (st : EngineState) (hinv : KeysInv st) (phrase : Phrase)
    (e : List SkillId) :
    KeysInv { st with query_extensions := alistSet st.query_extensions phrase e } := by
  intro p hp
  by_cases hpp : phrase = p
  · subst hpp
    rw [alistLookup_set_self]
    rfl
  · rw [alistLookup_set_ne _ _ _ _ hpp]
    exact hinv p hp

theorem KeysInv_set_both (st : EngineState) (hinv : KeysInv st) (phrase : Phrase)
    (r : List Bid) (e : List SkillId) :
    KeysInv
      { st with
          query_replies := alistSet st.query_replies phrase r,
          query_extensions := alistSet st.query_extensions phrase e } := by
  intro p hp
  by_cases hpp : phrase = p
  · subst hpp
    rw [alistLookup_set_self]
    rfl
  · rw [alistLookup_set_ne _ _ _ _ hpp] at hp ⊢
    exact hinv p hp

theorem KeysInv_set_replies (st : EngineState) (hinv : KeysInv st) (phrase : Phrase)
    (r : List Bid) (hext : (alistLookup st.query_extensions phrase).isSome) :
    KeysInv { st with query_replies := alistSet st.query_replies phrase r } := by
  intro p hp
  by_cases hpp : phrase = p
  · subst hpp
    exact hext
  · rw [alistLookup_set_ne _ _ _ _ hpp] at hp
    exact hinv p hp

theorem KeysInv_close (st : EngineState) (hinv : KeysInv st) (phrase : Phrase)
    (e : List SkillId) (b : Bool) :
    KeysInv
      ⟨alistErase st.query_replies phrase,
       alistErase (alistSet st.query_extensions phrase e) phrase, b⟩ := by
  intro p hp
  by_cases hpp : phrase = p
  · subst hpp
    rw [show (⟨alistErase st.query_replies phrase,
        alistErase (alistSet st.query_extensions phrase e) phrase, b⟩ :
          EngineState).query_replies =
        alistErase st.query_replies phrase from rfl,
      alistLookup_erase_self] at hp
    simp at hp
  · rw [show (⟨alistErase st.query_replies phrase,
        alistErase (alistSet st.query_extensions phrase e) phrase, b⟩ :
          EngineState).query_replies =
        alistErase st.query_replies phrase from rfl,
      alistLookup_erase_ne _ _ _ hpp] at hp
    rw [show (⟨alistErase st.query_replies phrase,
        alistErase (alistSet st.query_extensions phrase e) phrase, b⟩ :
          EngineState).query_extensions =
        alistErase (alistSet st.query_extensions phrase e) phrase from rfl,
      alistLookup_erase_ne _ _ _ hpp, alistLookup_set_ne _ _ _ _ hpp]
    exact hinv p hp

/-- C9: if every phrase with a `query_replies` entry also has a
`query_extensions` entry, then that invariant is preserved by `play`, by
`handle_play_query_response` (on its result state) and by
`_play_query_timeout` (on its result state, also on the raising path), and
under it `handle_play_query_response` never raises — the unguarded
`query_extensions[search_phrase]` index in the bid-recording branch is
covered by the invariant. -/
theorem replies_keys_subset_extensions_invariant (st : EngineState)
    (hinv : KeysInv st) :
    (∀ hes phrase, KeysInv (play hes phrase st).1) ∧
    (∀ m, exceptIsOk (handle_play_query_response m st) = true ∧
      KeysInv (resultState (handle_play_query_response m st))) ∧
    (∀ rand m, KeysInv (resultState (playQueryTimeout rand m st))) := by
  refine ⟨?_, ?_, ?_⟩
  · intro hes phrase
    exact KeysInv_set_both st hinv phrase [] []
  · intro m
    rcases hs : m.searching with _ | s
    · rcases hr : alistLookup st.query_replies m.phrase with _ | reps
      · have heq : handle_play_query_response m st = Except.ok (st, []) := by
          simp only [handle_play_query_response, hs, hr]
        rw [heq]
        exact ⟨rfl, hinv⟩
      · have hextS : (alistLookup st.query_extensions m.phrase).isSome :=
          hinv m.phrase (by rw [hr]; rfl)
        obtain ⟨exts, hext⟩ := Option.isSome_iff_exists.mp hextS
        by_cases hm : m.skill_id ∈ exts
        · by_cases he : exts.erase m.skill_id = []
          · have heq : handle_play_query_response m st =
                Except.ok
                  ({ st with
                      query_replies :=
                        alistSet st.query_replies m.phrase (reps ++ [msgBid m]),
                      query_extensions :=
                        (alistSet st.query_extensions m.phrase
                          (exts.erase m.skill_id)) },
                   [Event.cancelTimeout, Event.scheduleTimeout 0 m.phrase]) := by
              simp only [handle_play_query_response, hs, hr, hext]
              simp [hm, he]
            rw [heq]
            exact ⟨rfl, KeysInv_set_both st hinv m.phrase _ _⟩
          · have heq : handle_play_query_response m st =
                Except.ok
                  ({ st with
                      query_replies :=
                        alistSet st.query_replies m.phrase (reps ++ [msgBid m]),
                      query_extensions :=
                        (alistSet st.query_extensions m.phrase
                          (exts.erase m.skill_id)) },
                   []) := by
              simp only [handle_play_query_response, hs, hr, hext]
              simp [hm, he]
            rw [heq]
            exact ⟨rfl, KeysInv_set_both st hinv m.phrase _ _⟩
        · have heq : handle_play_query_response m st =
              Except.ok
                ({ st with
                    query_replies :=
                      alistSet st.query_replies m.phrase (reps ++ [msgBid m]) },
                 []) := by
            simp only [handle_play_query_response, hs, hr, hext]
            simp [hm]
          rw [heq]
          exact ⟨rfl, KeysInv_set_replies st hinv m.phrase _ hextS⟩
    · rcases hext0 : alistLookup st.query_extensions m.phrase with _ | exts
      · rcases hr : alistLookup st.query_replies m.phrase with _ | reps
        · have heq : handle_play_query_response m st = Except.ok (st, []) := by
            simp only [handle_play_query_response, hs, hext0, hr]
          rw [heq]
          exact ⟨rfl, hinv⟩
        · exact absurd (hinv m.phrase (by rw [hr]; rfl)) (by rw [hext0]; simp)
      · cases s
        · by_cases hm : m.skill_id ∈ exts
          · by_cases he : exts.erase m.skill_id = []
            · have heq : handle_play_query_response m st =
                  Except.ok
                    ({ st with
                        query_extensions :=
                          (alistSet st.query_extensions m.phrase
                            (exts.erase m.skill_id)) },
                     [Event.cancelTimeout, Event.scheduleTimeout 1 m.phrase]) := by
                simp only [handle_play_query_response, hs, hext0]
                simp [hm, he]
              rw [heq]
              exact ⟨rfl, KeysInv_set_ext st hinv m.phrase _⟩
            · have heq : handle_play_query_response m st =
                  Except.ok
                    ({ st with
                        query_extensions :=
                          (alistSet st.query_extensions m.phrase
                            (exts.erase m.skill_id)) },
                     []) := by
                simp only [handle_play_query_response, hs, hext0]
                simp [hm, he]
              rw [heq]
              exact ⟨rfl, KeysInv_set_ext st hinv m.phrase _⟩
          · have heq : handle_play_query_response m st = Except.ok (st, []) := by
              simp only [handle_play_query_response, hs, hext0]
              simp [hm]
            rw [heq]
            exact ⟨rfl, hinv⟩
        · have heq : handle_play_query_response m st =
              Except.ok
                ({ st with
                    query_extensions :=
                      (alistSet st.query_extensions m.phrase
                        (if m.skill_id ∈ exts then exts else exts ++ [m.skill_id])) },
                 [Event.cancelTimeout, Event.scheduleTimeout 5 m.phrase]) := by
            simp only [handle_play_query_response, hs, hext0]
            simp
          rw [heq]
          exact ⟨rfl, KeysInv_set_ext st hinv m.phrase _⟩
  · intro rand m
    rcases hr : alistLookup st.query_replies m.phrase with _ | reps
    · have heq : playQueryTimeout rand m st =
          Except.error
            { st with query_extensions := alistSet st.query_extensions m.phrase [] } := by
        simp only [playQueryTimeout, hr]
      rw [heq]
      exact KeysInv_set_ext st hinv m.phrase []
    · rcases hsc : reps.foldl scanStep ((none : Option Bid), ([] : List Bid)) with ⟨ob, t⟩
      cases ob with
      | none =>
          have heq : resultState (playQueryTimeout rand m st) =
              ⟨alistErase st.query_replies m.phrase,
               alistErase (alistSet st.query_extensions m.phrase []) m.phrase,
               st.has_played⟩ := by
            simp only [playQueryTimeout, hr, hsc]
            rfl
          rw [heq]
          exact KeysInv_close st hinv m.phrase [] st.has_played
      | some b =>
          have heq : resultState (playQueryTimeout rand m st) =
              ⟨alistErase st.query_replies m.phrase,
               alistErase (alistSet st.query_extensions m.phrase []) m.phrase,
               true⟩ := by
            simp only [playQueryTimeout, hr, hsc]
            rfl
          rw [heq]
          exact KeysInv_close st hinv m.phrase [] true

theorem replies_keys_subset_extensions_invariant_witness :
    KeysInv ⟨[], [], false⟩ ∧
    KeysInv (play false "p" ⟨[], [], false⟩).1 ∧
    exceptIsOk (handle_play_query_response ⟨"p", "s", none, 1, none⟩ ⟨[], [], false⟩) =
      true ∧
    KeysInv (resultState (playQueryTimeout 0 ⟨"p", false⟩ ⟨[], [], false⟩)) := by
  have h0 : KeysInv ⟨[], [], false⟩ := by
    intro p hp
    simp [alistLookup] at hp
  have h := replies_keys_subset_extensions_invariant ⟨[], [], false⟩ h0
  exact ⟨h0, h.1 false "p", (h.2.1 ⟨"p", "s", none, 1, none⟩).1, h.2.2 0 ⟨"p", false⟩⟩

/-- C10: over a cache holding all four tracked keys, `handle_song_info`
reports a change exactly when at least one tracked field's incoming value
(the empty string when the field is absent from the message) differs from
its previously cached value. -/
theorem song_info_changed_iff (m : StatusMsg) (t a al im : String) :
    (handle_song_info m
        [("track", t), ("artist", a), ("album", al), ("image", im)]).2 = true ↔
      (t ≠ m.track.getD "" ∨ a ≠ m.artist.getD "" ∨
       al ≠ m.album.getD "" ∨ im ≠ m.image.getD "") := by
  simp [handle_song_info, STATUS_KEYS, statusGet, alistLookup, alistSet]
  tauto

/-- C3 (amended): whenever a winner is dispatched, the generic
`controls.qml` page is triggered if and only if the *first maximal* bid
(`best`) carries no truthy `skill_gui` flag in its callback data — the
source checks `best`, not the randomly selected winner, so at a tie-break
the selected winner's own flag is not what decides. -/
theorem gui_follows_first_maximal_bid (rand : Nat) (m : TimeoutMsg)
    (st : EngineState) (reps : List Bid) (b : Bid) (ties : List Bid)
    (hrep : alistLookup st.query_replies m.phrase = some reps)
    (hscan : reps.foldl scanStep ((none : Option Bid), ([] : List Bid)) =
      (some b, ties)) :
    ∃ st2 evs, playQueryTimeout rand m st = Except.ok (st2, evs) ∧
      (Event.showPage "controls.qml" ∈ evs ↔ getSkillGui b.callback_data = false) := by
  simp only [playQueryTimeout, hrep, hscan]
  refine ⟨_, _, rfl, ?_⟩
  by_cases hg : getSkillGui b.callback_data
  · simp [hg]
  · simp [hg]

theorem gui_follows_first_maximal_bid_witness :
    ([⟨"a", 5, some ⟨true, []⟩⟩, ⟨"b", 5, some ⟨false, []⟩⟩] : List Bid).foldl
        scanStep ((none : Option Bid), ([] : List Bid)) =
      (some ⟨"a", 5, some ⟨true, []⟩⟩, [⟨"b", 5, some ⟨false, []⟩⟩]) ∧
    (∃ st2 evs, playQueryTimeout 0 ⟨"pop", false⟩
        ⟨[("pop", [⟨"a", 5, some ⟨true, []⟩⟩, ⟨"b", 5, some ⟨false, []⟩⟩])],
         [("pop", [])], false⟩ = Except.ok (st2, evs) ∧
      (Event.showPage "controls.qml" ∈ evs ↔
        getSkillGui ((⟨"a", 5, some ⟨true, []⟩⟩ : Bid)).callback_data = false)) := by
  exact ⟨by rfl,
    gui_follows_first_maximal_bid 0 ⟨"pop", false⟩
      ⟨[("pop", [⟨"a", 5, some ⟨true, []⟩⟩, ⟨"b", 5, some ⟨false, []⟩⟩])],
       [("pop", [])], false⟩
      [⟨"a", 5, some ⟨true, []⟩⟩, ⟨"b", 5, some ⟨false, []⟩⟩]
      ⟨"a", 5, some ⟨true, []⟩⟩ [⟨"b", 5, some ⟨false, []⟩⟩] (by rfl) (by rfl)⟩

end PlaybackControl
